import Mathlib

/-!
Verification development for the `element-event` repository.

The repository's `event.py` declares the DataJoint tables of the event
element: the `InterpolationType` lookup catalog, the `EventInterpolation`
correction log, the `CameraTimestamps` raw-data preservation table, and the
module-level `activate` / `get_experiment_root_data_dir` /
`get_session_directory` functions.  The sequence-correction engine that
populates those tables is described by the specification (IncrementModel,
AnomalyDetectors, SequenceRepairer, GapFiller, SyntheticFallback,
CorrectionEngine); it is modelled here from the specification's words and
checked against the spec's stated properties.
-/

namespace ElementEvent

/-- The closed catalog of interpolation/correction types, from the
`InterpolationType` lookup table in `event.py` (one constructor per row). -/
inductive InterpType where
  | LEADING_ZERO
  | DUPLICATE_SEQ
  | PATTERN_446
  | BAD_DIFF
  | INTERPOLATED
  | EXTRAPOLATED_LEADING
  | EXTRAPOLATED_TRAILING
  | INTERPOLATED_SYNTHETIC
deriving DecidableEq

/-- The `interpolation_type` key string of each catalog variant, as stored in
the `InterpolationType` lookup table. -/
def InterpType.name : InterpType → String
  | .LEADING_ZERO => "LEADING_ZERO"
  | .DUPLICATE_SEQ => "DUPLICATE_SEQ"
  | .PATTERN_446 => "PATTERN_446"
  | .BAD_DIFF => "BAD_DIFF"
  | .INTERPOLATED => "INTERPOLATED"
  | .EXTRAPOLATED_LEADING => "EXTRAPOLATED_LEADING"
  | .EXTRAPOLATED_TRAILING => "EXTRAPOLATED_TRAILING"
  | .INTERPOLATED_SYNTHETIC => "INTERPOLATED_SYNTHETIC"

/-- `InterpolationType.contents` from `event.py`: the rows
(key, description) inserted into the lookup table. -/
def interpolationTypeContents : List (String × String) :=
  [("LEADING_ZERO", "Leading NaN/zero frames replaced with 0"),
   ("DUPLICATE_SEQ", "Repeated sequence detected and zeroed"),
   ("PATTERN_446", "4,4,6 pattern corrected to 4,5,5"),
   ("BAD_DIFF", "Invalid diff corrected using predicted increment"),
   ("INTERPOLATED", "Zero frame filled via linear interpolation"),
   ("EXTRAPOLATED_LEADING", "Leading zero extrapolated backwards"),
   ("EXTRAPOLATED_TRAILING", "Trailing zero extrapolated forwards"),
   ("INTERPOLATED_SYNTHETIC", "No valid frames - synthetic sequence generated")]

/-- Status of one frame after a repair pass (spec section 3, FrameRecord). -/
inductive FrameStatus where
  | valid
  | corrected
  | unresolved
deriving DecidableEq

/-- One correction-log record, mirroring the `EventInterpolation` table
columns of `event.py`. -/
structure LogEntry where
  frame_idx : Nat
  interpolation_type : InterpType
  original_value : Int
  corrected_value : Int
  diff_before : Option Int
  diff_after : Option Int
  details : String
deriving DecidableEq

/-- One per-frame record of the corrected sequence (spec section 3,
FrameRecord). -/
structure FrameRecordR where
  frame_idx : Nat
  raw_value : Int
  corrected_value : Int
  status : FrameStatus
  correction_type : Option InterpType
  diff_before : Option Int
  diff_after : Option Int
  details : String
deriving DecidableEq

/-- Derived statistics of one pass (spec section 3, SequenceSummary; the
field names follow the `CameraTimestamps` table of `event.py`). -/
structure SequenceSummary where
  n_frames : Nat
  n_valid_ocr : Nat
  n_csv_timestamps : Nat
  frame_rate_hz : ℚ
  duration_sec : ℚ
  notes : String

/-- The output triple of one CorrectionEngine invocation, together with the
preserved raw inputs (spec: RawSequence and ReferenceTimeSeries are
immutable, preserved for audit as in the `CameraTimestamps` table). -/
structure EngineOutput where
  raw_ocr_frame_indices : List Int
  csv_timestamps : List ℚ
  records : List FrameRecordR
  corrected : List Int
  log : List LogEntry
  summary : SequenceSummary

/-- Fatal errors of the engine (spec section 7). -/
inductive EngineError where
  | insufficientReferenceData
  | lengthMismatch
  | invariantViolation
deriving DecidableEq

/-- Raw counter reading of frame `i`; out-of-range reads give the
zero/sentinel value ("no reading"). -/
def rv (raw : List Int) (i : Nat) : Int := raw.getD i 0

/-- Modelled from the spec: the valid-increment set of the IncrementModel
(default 2-value alphabet, increments 4 and 5). -/
def validDelta (d : Int) : Bool := d == 4 || d == 5

/-- Round-half-up division `round(p / q)` for `0 < q`, carried out in
integer arithmetic: `round(p/q) = floor((2p + q) / (2q))`. -/
def roundDiv (p q : Int) : Int := (2 * p + q) / (2 * q)

/-- Modelled from the spec: the expected 3-frame triplet pattern `[4,5,5]`
sums to 14, so the expected per-frame increment is `14/3`. -/
def expectedTripletSum : Int := 14

/-- Expected cumulative counter increment over `k` frames,
`round(k * expected_increment())` with `expected_increment() = 14/3`. -/
def cumExpected (k : Int) : Int := roundDiv (expectedTripletSum * k) 3

/-- A 3-frame window starting at `s` whose readings are all non-sentinel. -/
def windowNZ (raw : List Int) (s : Nat) : Bool :=
  rv raw s != 0 && rv raw (s + 1) != 0 && rv raw (s + 2) != 0

/-- Exact equality of the 3-frame windows starting at `j` and at `s`. -/
def windowEq (raw : List Int) (j s : Nat) : Bool :=
  rv raw j == rv raw s && rv raw (j + 1) == rv raw (s + 1) &&
    rv raw (j + 2) == rv raw (s + 2)

/-- Modelled from the spec: the duplicate-block detector (missing from
`src/`; only its `DUPLICATE_SEQ` catalog row exists there).  A window
`[s, s+3)` of non-sentinel readings is a duplicate span when it exactly
equals a prior non-overlapping window and the expected cumulative increment
between the two start frames is violated. -/
def dupSpan (raw : List Int) (s : Nat) : Bool :=
  decide (s + 3 ≤ raw.length) && windowNZ raw s &&
    (List.range s).any (fun j =>
      decide (j + 3 ≤ s) && windowEq raw j s &&
        (rv raw s - rv raw j != cumExpected ((s : Int) - (j : Int))))

/-- Frame `i` is claimed by the duplicate-block detector when it lies in
some duplicate span. -/
def dupClaimed (raw : List Int) (i : Nat) : Bool :=
  (List.range raw.length).any (fun s =>
    decide (s ≤ i) && decide (i < s + 3) && dupSpan raw s)

/-- A frame is resolved (trustworthy for the repair pass) when its reading
is non-sentinel and it is not claimed as a duplicate; zero/sentinel frames
(including the whole leading-zero prefix) stay unresolved for the gap
filler. -/
def resolvedB (raw : List Int) (i : Nat) : Bool :=
  rv raw i != 0 && !dupClaimed raw i

/-- Modelled from the spec: the periodic-misread detector (missing from
`src/`).  A non-overlapping 3-delta window aligned at frames `[3k, 3k+3]`
matches when its observed delta triple is the known misread `[4,4,6]` of
the expected triplet `[4,5,5]`; `i = 3k+2` is the one frame whose
cumulative value is off by one. -/
def patternHit (raw : List Int) (i : Nat) : Bool :=
  decide (2 ≤ i) && i % 3 == 2 && decide (i + 1 < raw.length) &&
    resolvedB raw (i - 2) && resolvedB raw (i - 1) && resolvedB raw i &&
    resolvedB raw (i + 1) &&
    (rv raw (i - 1) - rv raw (i - 2) == 4) &&
    (rv raw i - rv raw (i - 1) == 4) &&
    (rv raw (i + 1) - rv raw i == 6)

/-- Working value after the periodic-misread rewrite: the flagged frame is
shifted to restore the expected `[4,5,5]` deltas (cumulative offset past
the window is zero because the misread preserves the triplet sum). -/
def pv (raw : List Int) (i : Nat) : Int :=
  rv raw i + (if patternHit raw i then 1 else 0)

/-- Modelled from the spec: the invalid-delta repair (missing from `src/`).
Walking left to right, a resolved frame whose delta to the previous
resolved frame is invalid is rewritten to the previous corrected value plus
a replacement delta: the locally-observed preceding corrected delta when
that is valid, the expected increment (rounded, 5) otherwise. -/
def curVal (raw : List Int) : Nat → Int
  | 0 => pv raw 0
  | 1 =>
    if resolvedB raw 1 && resolvedB raw 0 then
      if validDelta (pv raw 1 - curVal raw 0) then pv raw 1
      else curVal raw 0 + 5
    else pv raw 1
  | i + 2 =>
    if resolvedB raw (i + 2) && resolvedB raw (i + 1) then
      if validDelta (pv raw (i + 2) - curVal raw (i + 1)) then pv raw (i + 2)
      else
        curVal raw (i + 1) +
          (if validDelta (curVal raw (i + 1) - curVal raw i) then
            curVal raw (i + 1) - curVal raw i
          else 5)
    else pv raw (i + 2)

/-- Frame `i` was rewritten by the invalid-delta repair. -/
def badDiffHit (raw : List Int) : Nat → Bool
  | 0 => false
  | i + 1 =>
    resolvedB raw (i + 1) && resolvedB raw i &&
      !validDelta (pv raw (i + 1) - curVal raw i)

/-- Nearest resolved frame strictly before `i`, if any. -/
def prevRes (raw : List Int) (i : Nat) : Option Nat :=
  (List.range i).reverse.find? (resolvedB raw)

/-- Nearest resolved frame strictly after `i`, if any. -/
def nextRes (raw : List Int) (i : Nat) : Option Nat :=
  (List.range' (i + 1) (raw.length - (i + 1))).find? (resolvedB raw)

/-- Last frame of the maximal resolved run starting at `a`. -/
def runEnd (raw : List Int) (a : Nat) : Nat :=
  a + ((List.range' a (raw.length - a)).takeWhile (resolvedB raw)).length - 1

/-- First frame of the maximal resolved run containing `a`. -/
def runStart (raw : List Int) (a : Nat) : Nat :=
  a - ((List.range a).reverse.takeWhile (resolvedB raw)).length

/-- Start of the first resolved run of length at least 2 (the first frame
followed immediately by another resolved frame). -/
def firstRun2 (raw : List Int) : Option Nat :=
  (List.range raw.length).find? (fun a => resolvedB raw a && resolvedB raw (a + 1))

/-- Last frame that starts a resolved pair; the run containing it is the
last resolved run of length at least 2. -/
def lastRun2 (raw : List Int) : Option Nat :=
  (List.range raw.length).reverse.find?
    (fun a => resolvedB raw a && resolvedB raw (a + 1))

/-- Numerator of the backward-extrapolation slope: rise of the first
resolved run of length at least 2 (expected increment `14/3` when none). -/
def leadSlopeNum (raw : List Int) : Int :=
  match firstRun2 raw with
  | some a => curVal raw (runEnd raw a) - curVal raw a
  | none => 14

/-- Denominator of the backward-extrapolation slope: length in frames of
the first resolved run of length at least 2. -/
def leadSlopeDen (raw : List Int) : Int :=
  match firstRun2 raw with
  | some a => (runEnd raw a : Int) - (a : Int)
  | none => 3

/-- Numerator of the forward-extrapolation slope (last resolved run). -/
def tailSlopeNum (raw : List Int) : Int :=
  match lastRun2 raw with
  | some a => curVal raw (runEnd raw a) - curVal raw (runStart raw a)
  | none => 14

/-- Denominator of the forward-extrapolation slope (last resolved run). -/
def tailSlopeDen (raw : List Int) : Int :=
  match lastRun2 raw with
  | some a => (runEnd raw a : Int) - (runStart raw a : Int)
  | none => 3

/-- Modelled from the spec: the GapFiller (missing from `src/`).  An
unresolved frame strictly between resolved frames is linearly interpolated;
a leading run is backward-extrapolated from the slope of the first resolved
run of length at least 2, anchored at the first resolved frame; a trailing
run is forward-extrapolated symmetrically. -/
def fillVal (raw : List Int) (i : Nat) : Int :=
  match prevRes raw i, nextRes raw i with
  | none, some r =>
    roundDiv (curVal raw r * leadSlopeDen raw -
      ((r : Int) - (i : Int)) * leadSlopeNum raw) (leadSlopeDen raw)
  | some l, some r =>
    roundDiv (curVal raw l * ((r : Int) - (l : Int)) +
      (curVal raw r - curVal raw l) * ((i : Int) - (l : Int)))
      ((r : Int) - (l : Int))
  | some l, none =>
    roundDiv (curVal raw l * tailSlopeDen raw +
      ((i : Int) - (l : Int)) * tailSlopeNum raw) (tailSlopeDen raw)
  | none, none => roundDiv (14 * (i : Int)) 3

/-- Correction type assigned by the gap filler. -/
def fillType (raw : List Int) (i : Nat) : InterpType :=
  match prevRes raw i, nextRes raw i with
  | none, some _ => .EXTRAPOLATED_LEADING
  | some _, some _ => .INTERPOLATED
  | some _, none => .EXTRAPOLATED_TRAILING
  | none, none => .INTERPOLATED

/-- Final corrected value of frame `i` on the main (non-synthetic) path. -/
def finalVal (raw : List Int) (i : Nat) : Int :=
  if resolvedB raw i then curVal raw i else fillVal raw i

/-- Final correction type of frame `i` on the main path (`none` for an
untouched valid frame). -/
def finalCtype (raw : List Int) (i : Nat) : Option InterpType :=
  if resolvedB raw i then
    if badDiffHit raw i then some .BAD_DIFF
    else if patternHit raw i then some .PATTERN_446
    else none
  else some (fillType raw i)

/-- Final status of frame `i`; no frame is left unresolved. -/
def statusOf (raw : List Int) (i : Nat) : FrameStatus :=
  if resolvedB raw i && finalVal raw i == rv raw i then .valid else .corrected

/-- Delta to the previous frame before correction (`raw[i] - corrected[i-1]`). -/
def diffB (raw : List Int) (i : Nat) : Option Int :=
  match i with
  | 0 => none
  | j + 1 => some (rv raw (j + 1) - finalVal raw j)

/-- Delta to the previous frame after correction. -/
def diffA (raw : List Int) (i : Nat) : Option Int :=
  match i with
  | 0 => none
  | j + 1 => some (finalVal raw (j + 1) - finalVal raw j)

/-- FrameRecord of frame `i` on the main path. -/
def mkRecord (raw : List Int) (i : Nat) : FrameRecordR :=
  ⟨i, rv raw i, finalVal raw i, statusOf raw i, finalCtype raw i,
    diffB raw i, diffA raw i, ""⟩

/-- All FrameRecords of the main path, one per frame index. -/
def mainRecords (raw : List Int) : List FrameRecordR :=
  (List.range raw.length).map (mkRecord raw)

/-- Interpolation type recorded in the log for a corrected frame. -/
def logTypeOf (raw : List Int) (i : Nat) : InterpType :=
  (finalCtype raw i).getD .INTERPOLATED

/-- Correction-log entry mirroring the FrameRecord of frame `i`. -/
def mkLogEntry (raw : List Int) (i : Nat) : LogEntry :=
  ⟨i, logTypeOf raw i, rv raw i, finalVal raw i, diffB raw i, diffA raw i, ""⟩

/-- The correction log of the main path: one entry per frame whose
corrected value differs from its raw value. -/
def mainLog (raw : List Int) : List LogEntry :=
  ((List.range raw.length).filter (fun i => finalVal raw i != rv raw i)).map
    (mkLogEntry raw)

/-- Modelled from the spec: the SyntheticFallback value
`corrected_value[i] = round(i * expected_increment())`, anchored at 0. -/
def synVal (i : Nat) : Int := roundDiv (14 * (i : Int)) 3

/-- Delta before correction on the synthetic path. -/
def synDiffB (raw : List Int) (i : Nat) : Option Int :=
  match i with
  | 0 => none
  | j + 1 => some (rv raw (j + 1) - synVal j)

/-- Delta after correction on the synthetic path. -/
def synDiffA (i : Nat) : Option Int :=
  match i with
  | 0 => none
  | j + 1 => some (synVal (j + 1) - synVal j)

/-- FrameRecord of frame `i` on the synthetic path: every frame is marked
`INTERPOLATED_SYNTHETIC`. -/
def synRecord (raw : List Int) (i : Nat) : FrameRecordR :=
  ⟨i, rv raw i, synVal i, .corrected, some .INTERPOLATED_SYNTHETIC,
    synDiffB raw i, synDiffA i, ""⟩

/-- All FrameRecords of the synthetic path. -/
def synRecords (raw : List Int) : List FrameRecordR :=
  (List.range raw.length).map (synRecord raw)

/-- Correction-log entry of frame `i` on the synthetic path. -/
def synLogEntry (raw : List Int) (i : Nat) : LogEntry :=
  ⟨i, .INTERPOLATED_SYNTHETIC, rv raw i, synVal i, synDiffB raw i,
    synDiffA i, ""⟩

/-- The correction log of the synthetic path (again only for frames whose
value changed). -/
def synLog (raw : List Int) : List LogEntry :=
  ((List.range raw.length).filter (fun i => synVal i != rv raw i)).map
    (synLogEntry raw)

/-- Number of frames with a valid (non-sentinel) OCR reading, the
`n_valid_ocr` column of `CameraTimestamps`. -/
def nValidOCR (raw : List Int) : Nat := raw.countP (fun v => v != 0)

/-- Modelled from the spec: frame rate derived from the reference series
(intervals per unit duration). -/
def frameRateHz (ref : List ℚ) : ℚ :=
  ((ref.length : ℚ) - 1) / ((ref.getLast?).getD 0 - ref.headD 0)

/-- Total duration of the reference series. -/
def durationSec (ref : List ℚ) : ℚ :=
  (ref.getLast?).getD 0 - ref.headD 0

/-- Summary statistics of one pass. -/
def mkSummary (raw : List Int) (ref : List ℚ) (notes : String) :
    SequenceSummary :=
  ⟨raw.length, nValidOCR raw, ref.length, frameRateHz ref, durationSec ref,
    notes⟩

/-- Output of the main (non-synthetic) path. -/
def mainOutput (raw : List Int) (ref : List ℚ) : EngineOutput :=
  ⟨raw, ref, mainRecords raw, (List.range raw.length).map (finalVal raw),
    mainLog raw, mkSummary raw ref ""⟩

/-- Output of the synthetic-fallback path. -/
def synOutput (raw : List Int) (ref : List ℚ) : EngineOutput :=
  ⟨raw, ref, synRecords raw, (List.range raw.length).map synVal,
    synLog raw, mkSummary raw ref "fallback triggered"⟩

/-- The repaired output before validation: the all-or-nothing synthetic
fallback fires exactly when no frame was ever originally raw-valid. -/
def engineBody (raw : List Int) (ref : List ℚ) : EngineOutput :=
  if nValidOCR raw == 0 then synOutput raw ref else mainOutput raw ref

/-- Modelled from the spec: tolerated slack between the raw and reference
sequence lengths. -/
def maxLengthSlack : Nat := 2

/-- Absolute difference of the two input lengths. -/
def lengthGap (raw : List Int) (ref : List ℚ) : Nat :=
  (raw.length - ref.length) + (ref.length - raw.length)

/-- The monotonicity invariant check: adjacent corrected values never
decrease. -/
def monotoneOK (xs : List Int) : Bool :=
  (List.range (xs.length - 1)).all
    (fun i => decide (xs.getD i 0 ≤ xs.getD (i + 1) 0))

/-- The "no unresolved frames remain" invariant check. -/
def noUnresolvedOK (rs : List FrameRecordR) : Bool :=
  rs.all (fun r => r.status != .unresolved)

/-- Modelled from the spec: the CorrectionEngine facade (missing from
`src/`).  Fails with `InsufficientReferenceData` when the reference series
has fewer than 2 usable timestamps, with `LengthMismatch` beyond the length
slack, runs the repair pipeline (synthetic fallback exactly when
`n_valid_ocr = 0`), then validates the monotonicity and no-unresolved
invariants, failing with `InvariantViolation` otherwise. -/
def runEngine (raw : List Int) (ref : List ℚ) :
    Except EngineError EngineOutput :=
  if ref.length < 2 then .error .insufficientReferenceData
  else if maxLengthSlack < lengthGap raw ref then .error .lengthMismatch
  else if monotoneOK (engineBody raw ref).corrected &&
      noUnresolvedOK (engineBody raw ref).records then
    .ok (engineBody raw ref)
  else .error .invariantViolation

/-- Whether an engine run succeeded. -/
def isOk {ε α : Type} : Except ε α → Bool
  | .ok _ => true
  | .error _ => false

/-- Correction log of a successful run (empty on failure). -/
def okLog : Except EngineError EngineOutput → List LogEntry
  | .ok o => o.log
  | .error _ => []

/-- Corrected sequence of a successful run (empty on failure). -/
def okCorrected : Except EngineError EngineOutput → List Int
  | .ok o => o.corrected
  | .error _ => []

/-- FrameRecords of a successful run (empty on failure). -/
def okRecords : Except EngineError EngineOutput → List FrameRecordR
  | .ok o => o.records
  | .error _ => []

/-- Preserved raw OCR sequence of a successful run. -/
def okRaw : Except EngineError EngineOutput → List Int
  | .ok o => o.raw_ocr_frame_indices
  | .error _ => []

/-- Preserved reference timestamp series of a successful run. -/
def okCsv : Except EngineError EngineOutput → List ℚ
  | .ok o => o.csv_timestamps
  | .error _ => []

/-- Bool-level statement that every adjacent raw delta is in the
valid-increment set (an anomaly-free sequence, together with a nonzero
first reading). -/
def deltasOKB (l : List Int) : Bool :=
  (List.range (l.length - 1)).all (fun i => validDelta (rv l (i + 1) - rv l i))

/-- Bool-level statement that the first `p` readings are all the
zero/sentinel value. -/
def zerosBelowB (raw : List Int) (p : Nat) : Bool :=
  (List.range p).all (fun i => rv raw i == 0)

/-- Bool-level statement that every adjacent delta from frame `p` onwards
is in the valid-increment set. -/
def deltasFromB (raw : List Int) (p : Nat) : Bool :=
  (List.range' p (raw.length - 1 - p)).all
    (fun k => validDelta (rv raw (k + 1) - rv raw k))

/-! ### Basic facts about the engine pipeline -/

theorem rv_out {raw : List Int} {i : Nat} (h : raw.length ≤ i) : rv raw i = 0 := by
  simp [rv, List.getD_eq_getElem?_getD, List.getElem?_eq_none h]

theorem validDelta_cases {d : Int} (h : validDelta d = true) : d = 4 ∨ d = 5 := by
  simpa [validDelta] using h

theorem runEngine_ok_cases (raw : List Int) (ref : List ℚ)
    (h : isOk (runEngine raw ref) = true) :
    runEngine raw ref = .ok (engineBody raw ref) ∧
      monotoneOK (engineBody raw ref).corrected = true ∧
      noUnresolvedOK (engineBody raw ref).records = true := by
  unfold runEngine at h ⊢
  split_ifs at h ⊢ with h1 h2 h3
  · simp [isOk] at h
  · simp [isOk] at h
  · rw [Bool.and_eq_true] at h3
    exact ⟨rfl, h3.1, h3.2⟩
  · simp [isOk] at h

theorem okLog_of_ok {raw : List Int} {ref : List ℚ}
    (h : isOk (runEngine raw ref) = true) :
    okLog (runEngine raw ref) = (engineBody raw ref).log := by
  rw [(runEngine_ok_cases raw ref h).1]
  rfl

theorem okCorrected_of_ok {raw : List Int} {ref : List ℚ}
    (h : isOk (runEngine raw ref) = true) :
    okCorrected (runEngine raw ref) = (engineBody raw ref).corrected := by
  rw [(runEngine_ok_cases raw ref h).1]
  rfl

theorem okRecords_of_ok {raw : List Int} {ref : List ℚ}
    (h : isOk (runEngine raw ref) = true) :
    okRecords (runEngine raw ref) = (engineBody raw ref).records := by
  rw [(runEngine_ok_cases raw ref h).1]
  rfl

theorem okRaw_of_ok {raw : List Int} {ref : List ℚ}
    (h : isOk (runEngine raw ref) = true) :
    okRaw (runEngine raw ref) = (engineBody raw ref).raw_ocr_frame_indices := by
  rw [(runEngine_ok_cases raw ref h).1]
  rfl

theorem okCsv_of_ok {raw : List Int} {ref : List ℚ}
    (h : isOk (runEngine raw ref) = true) :
    okCsv (runEngine raw ref) = (engineBody raw ref).csv_timestamps := by
  rw [(runEngine_ok_cases raw ref h).1]
  rfl

theorem engineBody_syn {raw : List Int} (ref : List ℚ)
    (h : nValidOCR raw = 0) : engineBody raw ref = synOutput raw ref := by
  simp [engineBody, h]

theorem engineBody_main {raw : List Int} (ref : List ℚ)
    (h : nValidOCR raw ≠ 0) : engineBody raw ref = mainOutput raw ref := by
  simp [engineBody, h]

theorem getD_map_range (f : Nat → Int) {n i : Nat} (h : i < n) :
    ((List.range n).map f).getD i 0 = f i := by
  rw [List.getD_eq_getElem?_getD, List.getElem?_map, List.getElem?_range h]
  rfl

/-! ### C1: the closed catalog of correction types -/

/-- C1: the correction/interpolation-type catalog recorded in the
`InterpolationType` lookup table is exactly the closed eight-element set,
every variant's key is in the catalog, and every correction-log entry of
any engine run carries an interpolation type drawn from this set. -/
theorem claim1_catalog_closed :
    interpolationTypeContents.map Prod.fst =
      ["LEADING_ZERO", "DUPLICATE_SEQ", "PATTERN_446", "BAD_DIFF",
       "INTERPOLATED", "EXTRAPOLATED_LEADING", "EXTRAPOLATED_TRAILING",
       "INTERPOLATED_SYNTHETIC"] ∧
    (∀ t : InterpType, t.name ∈ interpolationTypeContents.map Prod.fst) ∧
    ∀ (raw : List Int) (ref : List ℚ) (e : LogEntry),
      e ∈ okLog (runEngine raw ref) →
        e.interpolation_type.name ∈ interpolationTypeContents.map Prod.fst := by
  refine ⟨rfl, ?_, ?_⟩
  · intro t
    cases t <;> decide
  · intro raw ref e _
    cases e.interpolation_type <;> decide

/-- Witness for C1 at a concrete run containing a PATTERN_446 entry. -/
theorem claim1_witness :
    (⟨2, .PATTERN_446, 12, 13, some 4, some 5, ""⟩ : LogEntry).interpolation_type.name ∈
      interpolationTypeContents.map Prod.fst :=
  claim1_catalog_closed.2.2 [4, 8, 12, 18] [0, 1, 2, 3] _ (by decide)

/-! ### C2: monotonicity of every valid output -/

/-- C2: for every successful engine pass, the corrected sequence is
monotonic non-decreasing: `corrected_value[i] >= corrected_value[i-1]`
for all `i > 0`. -/
theorem claim2_monotone (raw : List Int) (ref : List ℚ)
    (h : isOk (runEngine raw ref) = true) :
    ∀ i : Nat, 0 < i → i < (okCorrected (runEngine raw ref)).length →
      (okCorrected (runEngine raw ref)).getD (i - 1) 0 ≤
        (okCorrected (runEngine raw ref)).getD i 0 := by
  obtain ⟨-, hmono, -⟩ := runEngine_ok_cases raw ref h
  rw [okCorrected_of_ok h]
  intro i hi hlen
  rw [monotoneOK, List.all_eq_true] at hmono
  have hmem : i - 1 ∈ List.range ((engineBody raw ref).corrected.length - 1) :=
    List.mem_range.mpr (by omega)
  have h2 := of_decide_eq_true (hmono _ hmem)
  have h3 : i - 1 + 1 = i := by omega
  rwa [h3] at h2

/-- Witness for C2 at a concrete successful run. -/
theorem claim2_witness :
    (okCorrected (runEngine [4, 8, 12, 18] [0, 1, 2, 3])).getD 0 0 ≤
      (okCorrected (runEngine [4, 8, 12, 18] [0, 1, 2, 3])).getD 1 0 := by
  have h := claim2_monotone [4, 8, 12, 18] [0, 1, 2, 3] (by decide) 1
    (by decide) (by decide)
  simpa using h

/-! ### C6: InsufficientReferenceData exactly on short reference series -/

/-- C6: the engine fails with `InsufficientReferenceData` exactly when the
reference series has fewer than 2 usable timestamps (and then produces no
corrected output, the result being an error). -/
theorem claim6_insufficient_iff (raw : List Int) (ref : List ℚ) :
    runEngine raw ref = .error .insufficientReferenceData ↔ ref.length < 2 := by
  unfold runEngine
  split_ifs with h1 h2 h3 <;> simp_all

/-- Witness for C6: a concrete one-timestamp reference series is rejected. -/
theorem claim6_witness :
    runEngine [4, 8] [0] = .error .insufficientReferenceData :=
  (claim6_insufficient_iff [4, 8] [0]).mpr (by decide)

/-! ### C10: the module-level linking machinery of `event.py` -/

/-- A user-supplied linking module: the root-directory list and the
session-directory lookup it provides. -/
structure LinkingModule where
  experiment_root_data_dirs : List String
  session_directory_of : List (String × String) → String

/-- Python-level errors surfaced by the module functions. -/
inductive PyError where
  | attributeError
  | assertionError
deriving DecidableEq

/-- Module-level state of `event.py`: the `_linking_module` global and the
activated schema name. -/
structure EventModuleState where
  _linking_module : Option LinkingModule
  activated_schema : Option String

/-- Initial module state: `_linking_module = None` (event.py line 10). -/
def initialEventModuleState : EventModuleState := ⟨none, none⟩

/-- `activate` from `event.py`: asserts the linking module argument is a
module, then activates the schema.  It never assigns the module-level
`_linking_module` global. -/
def activate (st : EventModuleState) (schema_name : String)
    (linking_module : Option LinkingModule) : Except PyError EventModuleState :=
  match linking_module with
  | none => .error .assertionError
  | some _ => .ok { st with activated_schema := some schema_name }

/-- `get_experiment_root_data_dir` from `event.py`: dereferences the
`_linking_module` global (an `AttributeError` when it is `None`). -/
def get_experiment_root_data_dir (st : EventModuleState) :
    Except PyError (List String) :=
  match st._linking_module with
  | none => .error .attributeError
  | some m => .ok m.experiment_root_data_dirs

/-- `get_session_directory` from `event.py`: dereferences the
`_linking_module` global (an `AttributeError` when it is `None`). -/
def get_session_directory (st : EventModuleState)
    (session_key : List (String × String)) : Except PyError String :=
  match st._linking_module with
  | none => .error .attributeError
  | some m => .ok (m.session_directory_of session_key)

/-- C10: `_linking_module` starts as `None` and `activate` never assigns
it, so both module functions raise `AttributeError` for every argument,
even after a successful `activate` call. -/
theorem claim10_linking_module_never_set :
    (∀ (schema_name : String) (m : Option LinkingModule)
        (st' : EventModuleState),
      activate initialEventModuleState schema_name m = .ok st' →
        st'._linking_module = none ∧
          get_experiment_root_data_dir st' = .error .attributeError ∧
          ∀ key, get_session_directory st' key = .error .attributeError) ∧
      get_experiment_root_data_dir initialEventModuleState =
        .error .attributeError := by
  constructor
  · intro name m st' h
    cases m with
    | none => simp [activate] at h
    | some mod =>
      simp only [activate, Except.ok.injEq] at h
      subst h
      exact ⟨rfl, rfl, fun _ => rfl⟩
  · rfl

/-- Witness for C10 at a concrete successful `activate` call. -/
theorem claim10_witness :
    get_experiment_root_data_dir
        (⟨none, some "behavior"⟩ : EventModuleState) = .error .attributeError :=
  (claim10_linking_module_never_set.1 "behavior"
    (some ⟨[], fun _ => ""⟩) ⟨none, some "behavior"⟩ rfl).2.1

/-! ### Log construction facts shared by the main and synthetic paths -/

theorem log_shape (vf : Nat → Int) (mk : Nat → LogEntry) (raw : List Int)
    (hmk : ∀ j, (mk j).frame_idx = j) :
    ∀ i < raw.length,
      ((∃ e ∈ ((List.range raw.length).filter
          (fun j => vf j != rv raw j)).map mk, e.frame_idx = i) ↔
        vf i ≠ rv raw i) := by
  intro i hi
  constructor
  · rintro ⟨e, he, hfe⟩
    obtain ⟨j, hj, rfl⟩ := List.mem_map.mp he
    obtain ⟨-, hpred⟩ := List.mem_filter.mp hj
    rw [hmk j] at hfe
    subst hfe
    exact bne_iff_ne.mp hpred
  · intro hne
    refine ⟨mk i, List.mem_map.mpr ⟨i, ?_, rfl⟩, hmk i⟩
    exact List.mem_filter.mpr ⟨List.mem_range.mpr hi, bne_iff_ne.mpr hne⟩

theorem log_pairwise (vf : Nat → Int) (mk : Nat → LogEntry) (raw : List Int)
    (hmk : ∀ j, (mk j).frame_idx = j) :
    (((List.range raw.length).filter
        (fun j => vf j != rv raw j)).map mk).Pairwise
      (fun e₁ e₂ => e₁.frame_idx ≠ e₂.frame_idx) := by
  rw [List.pairwise_map]
  refine List.Pairwise.imp ?_ ((List.nodup_range raw.length).filter _)
  intro a b hab
  rw [hmk a, hmk b]
  exact hab

theorem noUnresolved_main (raw : List Int) :
    noUnresolvedOK (mainRecords raw) = true := by
  rw [noUnresolvedOK, List.all_eq_true]
  intro r hr
  obtain ⟨i, -, rfl⟩ := List.mem_map.mp hr
  show ((mkRecord raw i).status != .unresolved) = true
  rw [mkRecord]
  unfold statusOf
  split <;> rfl

theorem noUnresolved_syn (raw : List Int) :
    noUnresolvedOK (synRecords raw) = true := by
  rw [noUnresolvedOK, List.all_eq_true]
  intro r hr
  obtain ⟨i, -, rfl⟩ := List.mem_map.mp hr
  rfl

theorem nValidOCR_ne_zero {raw : List Int} (i : Nat) (hi : i < raw.length)
    (hv : rv raw i ≠ 0) : nValidOCR raw ≠ 0 := by
  have hpos : 0 < nValidOCR raw := by
    rw [nValidOCR]
    refine List.countP_pos_iff.mpr ⟨raw[i], List.getElem_mem hi, ?_⟩
    have : raw[i] = rv raw i := by
      rw [rv, List.getD_eq_getElem?_getD, List.getElem?_eq_getElem hi]
      rfl
    rw [this]
    exact bne_iff_ne.mpr hv
  omega

/-! ### C4: log minimality -/

/-- C4: on every successful pass, a correction-log entry exists for frame
`i` iff the corrected value differs from the raw value there, and the log
carries at most one entry per frame. -/
theorem claim4_log_minimality (raw : List Int) (ref : List ℚ)
    (h : isOk (runEngine raw ref) = true) :
    (∀ i < raw.length,
      ((∃ e ∈ okLog (runEngine raw ref), e.frame_idx = i) ↔
        (okCorrected (runEngine raw ref)).getD i 0 ≠ raw.getD i 0)) ∧
    (okLog (runEngine raw ref)).Pairwise
      (fun e₁ e₂ => e₁.frame_idx ≠ e₂.frame_idx) := by
  rw [okLog_of_ok h, okCorrected_of_ok h]
  by_cases hval : nValidOCR raw = 0
  · rw [engineBody_syn ref hval]
    constructor
    · intro i hi
      have hshape := log_shape synVal (synLogEntry raw) raw (fun j => rfl) i hi
      rw [show (synOutput raw ref).log =
        ((List.range raw.length).filter
          (fun j => synVal j != rv raw j)).map (synLogEntry raw) from rfl]
      rw [hshape]
      rw [show (synOutput raw ref).corrected =
        (List.range raw.length).map synVal from rfl]
      rw [getD_map_range synVal hi]
      rfl
    · exact log_pairwise synVal (synLogEntry raw) raw (fun j => rfl)
  · rw [engineBody_main ref hval]
    constructor
    · intro i hi
      have hshape :=
        log_shape (finalVal raw) (mkLogEntry raw) raw (fun j => rfl) i hi
      rw [show (mainOutput raw ref).log =
        ((List.range raw.length).filter
          (fun j => finalVal raw j != rv raw j)).map (mkLogEntry raw) from rfl]
      rw [hshape]
      rw [show (mainOutput raw ref).corrected =
        (List.range raw.length).map (finalVal raw) from rfl]
      rw [getD_map_range (finalVal raw) hi]
      rfl
    · exact log_pairwise (finalVal raw) (mkLogEntry raw) raw (fun j => rfl)

/-- Witness for C4 at a concrete run: frame 2 of the PATTERN_446 scenario
is corrected, so the minimality equivalence yields the value change. -/
theorem claim4_witness :
    (okCorrected (runEngine [4, 8, 12, 18] [0, 1, 2, 3])).getD 2 0 ≠
      ([4, 8, 12, 18] : List Int).getD 2 0 :=
  ((claim4_log_minimality [4, 8, 12, 18] [0, 1, 2, 3] (by decide)).1 2
    (by decide)).mp (by decide)

/-! ### C5: synthetic fallback exclusivity -/

/-- C5: the synthetic fallback fires exactly when `n_valid_ocr = 0`: then
every FrameRecord is `INTERPOLATED_SYNTHETIC` with
`corrected_value[i] = round(i * expected_increment())`, and when
`n_valid_ocr` is nonzero no record is `INTERPOLATED_SYNTHETIC` (synthetic
and repaired frames never mix). -/
theorem claim5_synthetic_fallback (raw : List Int) (ref : List ℚ)
    (h : isOk (runEngine raw ref) = true) :
    (nValidOCR raw = 0 →
      ∀ r ∈ okRecords (runEngine raw ref),
        r.correction_type = some .INTERPOLATED_SYNTHETIC ∧
          r.corrected_value = synVal r.frame_idx) ∧
    (nValidOCR raw ≠ 0 →
      ∀ r ∈ okRecords (runEngine raw ref),
        r.correction_type ≠ some .INTERPOLATED_SYNTHETIC) := by
  rw [okRecords_of_ok h]
  constructor
  · intro hval r hr
    rw [engineBody_syn ref hval] at hr
    obtain ⟨i, -, rfl⟩ := List.mem_map.mp hr
    exact ⟨rfl, rfl⟩
  · intro hval r hr
    rw [engineBody_main ref hval] at hr
    obtain ⟨i, -, rfl⟩ := List.mem_map.mp hr
    show finalCtype raw i ≠ some .INTERPOLATED_SYNTHETIC
    unfold finalCtype
    split_ifs
    · simp
    · simp
    · simp
    · unfold fillType
      split <;> simp

/-- Witness for C5 at a concrete all-sentinel input. -/
theorem claim5_witness :
    (⟨1, 0, 5, .corrected, some .INTERPOLATED_SYNTHETIC, some 0, some 5, ""⟩ :
        FrameRecordR).correction_type = some InterpType.INTERPOLATED_SYNTHETIC ∧
      (⟨1, 0, 5, .corrected, some .INTERPOLATED_SYNTHETIC, some 0, some 5, ""⟩ :
        FrameRecordR).corrected_value = synVal 1 :=
  (claim5_synthetic_fallback [0, 0, 0] [0, 1, 2] (by decide)).1 rfl _ (by decide)

/-! ### C9: inputs preserved unmodified -/

/-- C9: a correction pass never modifies its inputs: the raw OCR sequence
and the reference timestamp series are preserved unmodified in the output
for audit, and every log entry's `original_value` equals the raw input
value at its frame. -/
theorem claim9_inputs_preserved (raw : List Int) (ref : List ℚ)
    (h : isOk (runEngine raw ref) = true) :
    okRaw (runEngine raw ref) = raw ∧ okCsv (runEngine raw ref) = ref ∧
      ∀ e ∈ okLog (runEngine raw ref),
        e.original_value = raw.getD e.frame_idx 0 := by
  rw [okRaw_of_ok h, okCsv_of_ok h, okLog_of_ok h]
  refine ⟨?_, ?_, ?_⟩
  · unfold engineBody
    split <;> rfl
  · unfold engineBody
    split <;> rfl
  · unfold engineBody
    split
    · intro e he
      obtain ⟨i, -, rfl⟩ := List.mem_map.mp he
      rfl
    · intro e he
      obtain ⟨i, -, rfl⟩ := List.mem_map.mp he
      rfl

/-- Witness for C9 at a concrete run with a corrected frame. -/
theorem claim9_witness :
    okRaw (runEngine [4, 8, 12, 18] [0, 1, 2, 3]) = [4, 8, 12, 18] :=
  (claim9_inputs_preserved [4, 8, 12, 18] [0, 1, 2, 3] (by decide)).1

/-! ### Segment lemmas: sequences that are valid from frame `p` onwards -/

theorem deltasOKB_spec {l : List Int} (h : deltasOKB l = true) :
    ∀ i, i + 1 < l.length → validDelta (rv l (i + 1) - rv l i) = true := by
  intro i hi
  rw [deltasOKB, List.all_eq_true] at h
  exact h i (List.mem_range.mpr (by omega))

theorem zerosBelowB_spec {raw : List Int} {p : Nat}
    (h : zerosBelowB raw p = true) : ∀ i, i < p → rv raw i = 0 := by
  intro i hi
  rw [zerosBelowB, List.all_eq_true] at h
  exact beq_iff_eq.mp (h i (List.mem_range.mpr hi))

theorem deltasFromB_spec {raw : List Int} {p : Nat}
    (h : deltasFromB raw p = true) :
    ∀ k, p ≤ k → k + 1 < raw.length →
      validDelta (rv raw (k + 1) - rv raw k) = true := by
  intro k h1 h2
  rw [deltasFromB, List.all_eq_true] at h
  refine h k ?_
  rw [List.mem_range'_1]
  omega

theorem pos_from {raw : List Int} {p : Nat} (hpos : 0 < rv raw p)
    (hd : ∀ k, p ≤ k → k + 1 < raw.length →
      validDelta (rv raw (k + 1) - rv raw k) = true) :
    ∀ i, p ≤ i → i < raw.length → 0 < rv raw i := by
  intro i hpi
  induction i, hpi using Nat.le_induction with
  | base => intro _; exact hpos
  | succ i hpi ih =>
    intro hin
    have hi : i < raw.length := by omega
    have hv := validDelta_cases (hd i hpi (by omega))
    have := ih hi
    rcases hv with h | h <;> omega

theorem mono_from {raw : List Int} {p : Nat}
    (hd : ∀ k, p ≤ k → k + 1 < raw.length →
      validDelta (rv raw (k + 1) - rv raw k) = true) :
    ∀ i j, p ≤ i → i < j → j < raw.length → rv raw i < rv raw j := by
  intro i j
  induction j with
  | zero => intro _ hij _; omega
  | succ j ih =>
    intro hpi hij hjn
    rcases Nat.lt_or_ge i j with h | h
    · have h1 := ih hpi h (by omega)
      rcases validDelta_cases (hd j (by omega) (by omega)) with h2 | h2 <;> omega
    · have hieq : i = j := by omega
      subst hieq
      rcases validDelta_cases (hd i hpi (by omega)) with h2 | h2 <;> omega

theorem dup_false {raw : List Int} {p : Nat}
    (hz : ∀ i, i < p → rv raw i = 0)
    (hmono : ∀ i j, p ≤ i → i < j → j < raw.length → rv raw i < rv raw j) :
    ∀ i, dupClaimed raw i = false := by
  intro i
  rw [Bool.eq_false_iff]
  intro hcon
  rw [dupClaimed, List.any_eq_true] at hcon
  obtain ⟨s, -, hcond⟩ := hcon
  rw [Bool.and_eq_true, Bool.and_eq_true] at hcond
  obtain ⟨⟨-, -⟩, hspan⟩ := hcond
  rw [dupSpan, Bool.and_eq_true, Bool.and_eq_true] at hspan
  obtain ⟨⟨-, hnz⟩, hany⟩ := hspan
  rw [List.any_eq_true] at hany
  obtain ⟨j, -, hjc⟩ := hany
  rw [Bool.and_eq_true, Bool.and_eq_true] at hjc
  obtain ⟨⟨hj3, heq⟩, -⟩ := hjc
  rw [windowNZ, Bool.and_eq_true, Bool.and_eq_true] at hnz
  obtain ⟨⟨hs0, -⟩, -⟩ := hnz
  have hs0' : rv raw _ ≠ 0 := bne_iff_ne.mp hs0
  rw [windowEq, Bool.and_eq_true, Bool.and_eq_true] at heq
  obtain ⟨⟨hjs, -⟩, -⟩ := heq
  have hjs' := beq_iff_eq.mp hjs
  have hj3' := of_decide_eq_true hj3
  have hps : p ≤ s := by
    by_contra hlt
    exact hs0' (hz s (by omega))
  have hsn : s < raw.length := by
    rcases Nat.lt_or_ge s raw.length with h | h
    · exact h
    · exact absurd (rv_out h) hs0'
  have hpj : p ≤ j := by
    by_contra hlt
    rw [hz j (by omega)] at hjs'
    exact hs0' hjs'.symm
  have := hmono j s hpj (by omega) hsn
  omega

theorem resolved_iff {raw : List Int} {p : Nat}
    (hz : ∀ i, i < p → rv raw i = 0)
    (hpos : ∀ i, p ≤ i → i < raw.length → 0 < rv raw i)
    (hdup : ∀ i, dupClaimed raw i = false) :
    ∀ i, resolvedB raw i = true ↔ (p ≤ i ∧ i < raw.length) := by
  intro i
  rw [resolvedB, Bool.and_eq_true]
  constructor
  · rintro ⟨hne, -⟩
    have hne' : rv raw i ≠ 0 := bne_iff_ne.mp hne
    constructor
    · by_contra h
      exact hne' (hz i (by omega))
    · rcases Nat.lt_or_ge i raw.length with h | h
      · exact h
      · exact absurd (rv_out h) hne'
  · rintro ⟨h1, h2⟩
    refine ⟨bne_iff_ne.mpr ?_, ?_⟩
    · have := hpos i h1 h2
      omega
    · rw [hdup i]
      rfl

theorem pattern_false {raw : List Int} {p : Nat}
    (hres : ∀ i, resolvedB raw i = true ↔ (p ≤ i ∧ i < raw.length))
    (hd : ∀ k, p ≤ k → k + 1 < raw.length →
      validDelta (rv raw (k + 1) - rv raw k) = true) :
    ∀ i, patternHit raw i = false := by
  intro i
  rw [Bool.eq_false_iff]
  intro hcon
  simp only [patternHit, Bool.and_eq_true, decide_eq_true_eq, beq_iff_eq]
    at hcon
  obtain ⟨⟨⟨⟨⟨⟨⟨⟨⟨-, -⟩, ha3⟩, -⟩, -⟩, ha6⟩, -⟩, -⟩, -⟩, ha10⟩ := hcon
  have hpi : p ≤ i := ((hres i).mp ha6).1
  rcases validDelta_cases (hd i hpi ha3) with h | h <;> omega

theorem pv_eq_rv {raw : List Int}
    (hpat : ∀ i, patternHit raw i = false) : ∀ i, pv raw i = rv raw i := by
  intro i
  rw [pv, hpat i]
  simp

theorem curVal_eq_rv_of (raw : List Int)
    (hpv : ∀ i, pv raw i = rv raw i)
    (hvd : ∀ i, resolvedB raw (i + 1) = true → resolvedB raw i = true →
      validDelta (rv raw (i + 1) - rv raw i) = true) :
    ∀ i, curVal raw i = rv raw i
  | 0 => by
    simp only [curVal]
    exact hpv 0
  | 1 => by
    simp only [curVal]
    by_cases hc : (resolvedB raw 1 && resolvedB raw 0) = true
    · rw [if_pos hc]
      rw [Bool.and_eq_true] at hc
      have hv := hvd 0 hc.1 hc.2
      rw [hpv 1, hpv 0, if_pos hv]
    · rw [if_neg hc]
      exact hpv 1
  | i + 2 => by
    simp only [curVal]
    by_cases hc : (resolvedB raw (i + 2) && resolvedB raw (i + 1)) = true
    · rw [if_pos hc]
      rw [Bool.and_eq_true] at hc
      have hv := hvd (i + 1) hc.1 hc.2
      rw [hpv (i + 2), curVal_eq_rv_of raw hpv hvd (i + 1), if_pos hv]
    · rw [if_neg hc]
      exact hpv (i + 2)

theorem curVal_two (raw : List Int) (j : Nat) :
    curVal raw (j + 2) =
      if resolvedB raw (j + 2) && resolvedB raw (j + 1) then
        if validDelta (pv raw (j + 2) - curVal raw (j + 1)) then pv raw (j + 2)
        else
          curVal raw (j + 1) +
            (if validDelta (curVal raw (j + 1) - curVal raw j) then
              curVal raw (j + 1) - curVal raw j
            else 5)
      else pv raw (j + 2) := by
  simp only [curVal]

theorem map_range_eq_self {f : Nat → Int} {l : List Int}
    (hf : ∀ i, (h : i < l.length) → f i = l[i]) :
    (List.range l.length).map f = l := by
  apply List.ext_getElem?
  intro i
  rcases Nat.lt_or_ge i l.length with h | h
  · rw [List.getElem?_map, List.getElem?_range h,
      List.getElem?_eq_getElem h]
    simp [hf i h]
  · rw [List.getElem?_map, List.getElem?_eq_none (by simpa using h),
      List.getElem?_eq_none h]
    rfl

theorem rv_getElem {raw : List Int} {i : Nat} (h : i < raw.length) :
    rv raw i = raw[i] := by
  rw [rv, List.getD_eq_getElem?_getD, List.getElem?_eq_getElem h]
  rfl

/-! ### C3: idempotence on anomaly-free input -/

/-- C3: on an input with no raw anomalies (nonzero start, every adjacent
delta in the valid-increment set), the engine succeeds with an empty
correction log and an output sequence identical to the input; re-running
on the same inputs therefore reproduces the identical output. -/
theorem claim3_idempotence (raw : List Int) (ref : List ℚ)
    (hlen2 : 2 ≤ ref.length) (hleq : raw.length = ref.length)
    (h0 : 0 < rv raw 0) (hd : deltasOKB raw = true) :
    isOk (runEngine raw ref) = true ∧
      okCorrected (runEngine raw ref) = raw ∧
      okLog (runEngine raw ref) = [] := by
  have hδ := deltasOKB_spec hd
  have hδ0 : ∀ k, 0 ≤ k → k + 1 < raw.length →
      validDelta (rv raw (k + 1) - rv raw k) = true := fun k _ h => hδ k h
  have hz0 : ∀ i, i < 0 → rv raw i = 0 := fun i hi => absurd hi (Nat.not_lt_zero i)
  have hpos : ∀ i, 0 ≤ i → i < raw.length → 0 < rv raw i := pos_from h0 hδ0
  have hmono : ∀ i j, 0 ≤ i → i < j → j < raw.length →
      rv raw i < rv raw j := mono_from hδ0
  have hdup := dup_false hz0 hmono
  have hres := resolved_iff hz0 hpos hdup
  have hpatF := pattern_false hres hδ0
  have hpv := pv_eq_rv hpatF
  have hvd : ∀ i, resolvedB raw (i + 1) = true → resolvedB raw i = true →
      validDelta (rv raw (i + 1) - rv raw i) = true := by
    intro i h1 _
    exact hδ i ((hres (i + 1)).mp h1).2
  have hcur := curVal_eq_rv_of raw hpv hvd
  have hfin : ∀ i, i < raw.length → finalVal raw i = rv raw i := by
    intro i hi
    rw [finalVal, if_pos ((hres i).mpr ⟨Nat.zero_le i, hi⟩)]
    exact hcur i
  have hcorr : (List.range raw.length).map (finalVal raw) = raw := by
    apply map_range_eq_self
    intro i hi
    rw [hfin i hi, rv_getElem hi]
  have hlog : mainLog raw = [] := by
    rw [mainLog]
    have : (List.range raw.length).filter
        (fun i => finalVal raw i != rv raw i) = [] := by
      rw [List.filter_eq_nil_iff]
      intro i hi
      rw [List.mem_range] at hi
      rw [hfin i hi]
      simp
    rw [this, List.map_nil]
  have hval : nValidOCR raw ≠ 0 :=
    nValidOCR_ne_zero 0 (by omega) (by omega)
  have hbody : engineBody raw ref = mainOutput raw ref :=
    engineBody_main ref hval
  have hmonoOK : monotoneOK raw = true := by
    rw [monotoneOK, List.all_eq_true]
    intro i hi
    rw [List.mem_range] at hi
    apply decide_eq_true
    have e1 : rv raw i = raw.getD i 0 := rfl
    have e2 : rv raw (i + 1) = raw.getD (i + 1) 0 := rfl
    rcases validDelta_cases (hδ i (by omega)) with h | h <;> omega
  have hrun : runEngine raw ref = .ok (engineBody raw ref) := by
    rw [runEngine, if_neg (by omega), if_neg (by
      rw [lengthGap, maxLengthSlack]
      omega), if_pos ?_]
    rw [hbody, Bool.and_eq_true]
    refine ⟨?_, noUnresolved_main raw⟩
    show monotoneOK ((List.range raw.length).map (finalVal raw)) = true
    rw [hcorr]
    exact hmonoOK
  refine ⟨?_, ?_, ?_⟩
  · rw [hrun]
    rfl
  · rw [hrun]
    show (engineBody raw ref).corrected = raw
    rw [hbody]
    exact hcorr
  · rw [hrun]
    show (engineBody raw ref).log = []
    rw [hbody]
    exact hlog

/-- Witness for C3 at a concrete anomaly-free run. -/
theorem claim3_witness :
    isOk (runEngine [4, 8, 13, 18, 22] [0, 1, 2, 3, 4]) = true ∧
      okCorrected (runEngine [4, 8, 13, 18, 22] [0, 1, 2, 3, 4]) =
        [4, 8, 13, 18, 22] ∧
      okLog (runEngine [4, 8, 13, 18, 22] [0, 1, 2, 3, 4]) = [] :=
  claim3_idempotence [4, 8, 13, 18, 22] [0, 1, 2, 3, 4] (by decide)
    (by decide) (by decide) (by decide)

/-! ### Gap-filler characterization on a leading-zero prefix -/

theorem find?_append_none {α : Type} {l₁ l₂ : List α} {q : α → Bool}
    (h : ∀ x ∈ l₁, q x = false) : (l₁ ++ l₂).find? q = l₂.find? q := by
  induction l₁ with
  | nil => rfl
  | cons a l ih =>
    rw [List.cons_append, List.find?_cons_of_neg, ih]
    · intro x hx
      exact h x (List.mem_cons_of_mem a hx)
    · rw [h a (List.mem_cons_self a l)]
      simp

theorem takeWhile_all {q : Nat → Bool} :
    ∀ {l : List Nat}, (∀ x ∈ l, q x = true) → l.takeWhile q = l := by
  intro l
  induction l with
  | nil => intro _; rfl
  | cons a t ih =>
    intro h
    rw [List.takeWhile_cons, h a (List.mem_cons_self a t)]
    rw [ih (fun x hx => h x (List.mem_cons_of_mem a hx))]
    simp

theorem prevRes_none {raw : List Int} {p : Nat}
    (hres : ∀ j, resolvedB raw j = true ↔ (p ≤ j ∧ j < raw.length))
    {i : Nat} (hip : i < p) : prevRes raw i = none := by
  rw [prevRes, List.find?_eq_none]
  intro x hx
  rw [List.mem_reverse, List.mem_range] at hx
  intro hcon
  have := ((hres x).mp hcon).1
  omega

theorem nextRes_eq {raw : List Int} {p : Nat}
    (hres : ∀ j, resolvedB raw j = true ↔ (p ≤ j ∧ j < raw.length))
    (hpn : p < raw.length) {i : Nat} (hip : i < p) :
    nextRes raw i = some p := by
  rw [nextRes]
  rw [show raw.length - (i + 1) = (raw.length - p) + (p - (i + 1)) from by omega]
  rw [← List.range'_append]
  rw [show (i + 1) + 1 * (p - (i + 1)) = p from by omega]
  rw [find?_append_none ?_]
  · rw [show raw.length - p = (raw.length - p - 1) + 1 from by omega,
      List.range'_succ, List.find?_cons_of_pos]
    exact (hres p).mpr ⟨le_refl p, hpn⟩
  · intro x hx
    rw [List.mem_range'_1] at hx
    rw [Bool.eq_false_iff]
    intro hcon
    have := ((hres x).mp hcon).1
    omega

theorem firstRun2_eq {raw : List Int} {p : Nat}
    (hres : ∀ j, resolvedB raw j = true ↔ (p ≤ j ∧ j < raw.length))
    (hpn2 : p + 2 ≤ raw.length) : firstRun2 raw = some p := by
  rw [firstRun2, List.range_eq_range']
  rw [show raw.length = (raw.length - p) + p from by omega]
  rw [← List.range'_append]
  rw [show 0 + 1 * p = p from by omega]
  rw [find?_append_none ?_]
  · rw [show raw.length - p = (raw.length - p - 1) + 1 from by omega,
      List.range'_succ, List.find?_cons_of_pos]
    rw [Bool.and_eq_true]
    exact ⟨(hres p).mpr ⟨le_refl p, by omega⟩,
      (hres (p + 1)).mpr ⟨by omega, by omega⟩⟩
  · intro x hx
    rw [List.mem_range'_1] at hx
    rw [Bool.eq_false_iff]
    intro hcon
    rw [Bool.and_eq_true] at hcon
    have := ((hres x).mp hcon.1).1
    omega

theorem runEnd_eq {raw : List Int} {p : Nat}
    (hres : ∀ j, resolvedB raw j = true ↔ (p ≤ j ∧ j < raw.length))
    (hpn : p < raw.length) : runEnd raw p = raw.length - 1 := by
  rw [runEnd, takeWhile_all ?_]
  · rw [List.length_range']
    omega
  · intro x hx
    rw [List.mem_range'_1] at hx
    exact (hres x).mpr ⟨by omega, by omega⟩

/-! ### C7: leading-zero prefix repaired by backward extrapolation -/

/-- C7: on an input whose first `p` frames are zero/sentinel and whose
frames from `p` to the end form a valid run, every successful pass marks
each prefix frame `EXTRAPOLATED_LEADING` with a corrected value backward-
extrapolated (anchored at the first valid frame) from the slope of the
first interior valid run of length at least 2, and produces no correction
log entry for the subsequent valid frames (so the `LEADING_ZERO` flag is
only a placeholder: the final correction type is the extrapolation one). -/
theorem claim7_leading_extrapolation (raw : List Int) (ref : List ℚ)
    (p : Nat) (hp : 1 ≤ p) (hpn : p + 2 ≤ raw.length)
    (hz : zerosBelowB raw p = true) (hpos0 : 0 < rv raw p)
    (hd : deltasFromB raw p = true)
    (hok : isOk (runEngine raw ref) = true) :
    (∀ i < p, ∃ r ∈ okRecords (runEngine raw ref),
      r.frame_idx = i ∧ r.correction_type = some .EXTRAPOLATED_LEADING ∧
        r.corrected_value =
          roundDiv (rv raw p * ((raw.length : Int) - 1 - (p : Int)) -
              ((p : Int) - (i : Int)) *
                (rv raw (raw.length - 1) - rv raw p))
            ((raw.length : Int) - 1 - (p : Int))) ∧
    ∀ e ∈ okLog (runEngine raw ref), e.frame_idx < p := by
  have hzs := zerosBelowB_spec hz
  have hδ := deltasFromB_spec hd
  have hposA := pos_from hpos0 hδ
  have hmono := mono_from hδ
  have hdup := dup_false hzs hmono
  have hres := resolved_iff hzs hposA hdup
  have hpatF := pattern_false hres hδ
  have hpv := pv_eq_rv hpatF
  have hvd : ∀ i, resolvedB raw (i + 1) = true → resolvedB raw i = true →
      validDelta (rv raw (i + 1) - rv raw i) = true := by
    intro i h1 h2
    exact hδ i ((hres i).mp h2).1 ((hres (i + 1)).mp h1).2
  have hcur := curVal_eq_rv_of raw hpv hvd
  have hval : nValidOCR raw ≠ 0 :=
    nValidOCR_ne_zero p (by omega) (by omega)
  have hlogE := okLog_of_ok hok
  have hrecE := okRecords_of_ok hok
  rw [engineBody_main ref hval] at hlogE hrecE
  have hfinvalid : ∀ j, p ≤ j → j < raw.length → finalVal raw j = rv raw j := by
    intro j h1 h2
    rw [finalVal, if_pos ((hres j).mpr ⟨h1, h2⟩)]
    exact hcur j
  have hlead : leadSlopeNum raw = rv raw (raw.length - 1) - rv raw p ∧
      leadSlopeDen raw = ((raw.length : Int) - 1 - (p : Int)) := by
    constructor
    · rw [leadSlopeNum, firstRun2_eq hres hpn]
      show curVal raw (runEnd raw p) - curVal raw p = _
      rw [runEnd_eq hres (by omega), hcur (raw.length - 1), hcur p]
    · rw [leadSlopeDen, firstRun2_eq hres hpn]
      show ((runEnd raw p : Nat) : Int) - (p : Int) = _
      rw [runEnd_eq hres (by omega)]
      omega
  constructor
  · intro i hip
    refine ⟨mkRecord raw i,
      hrecE ▸ List.mem_map.mpr ⟨i, List.mem_range.mpr (by omega), rfl⟩,
      rfl, ?_, ?_⟩
    · show finalCtype raw i = some .EXTRAPOLATED_LEADING
      have hnr : ¬ resolvedB raw i = true := by
        intro hcon
        have := ((hres i).mp hcon).1
        omega
      rw [finalCtype, if_neg hnr, fillType,
        prevRes_none hres hip, nextRes_eq hres (by omega) hip]
    · show finalVal raw i =
        roundDiv (rv raw p * ((raw.length : Int) - 1 - (p : Int)) -
            ((p : Int) - (i : Int)) * (rv raw (raw.length - 1) - rv raw p))
          ((raw.length : Int) - 1 - (p : Int))
      have hnr : ¬ resolvedB raw i = true := by
        intro hcon
        have := ((hres i).mp hcon).1
        omega
      rw [finalVal, if_neg hnr, fillVal,
        prevRes_none hres hip, nextRes_eq hres (by omega) hip]
      show roundDiv (curVal raw p * leadSlopeDen raw -
          ((p : Int) - (i : Int)) * leadSlopeNum raw) (leadSlopeDen raw) = _
      rw [hcur p, hlead.1, hlead.2]
  · intro e he
    rw [hlogE] at he
    obtain ⟨j, hj, rfl⟩ := List.mem_map.mp he
    obtain ⟨hjr, hpred⟩ := List.mem_filter.mp hj
    rw [List.mem_range] at hjr
    show j < p
    by_contra hge
    rw [hfinvalid j (by omega) hjr] at hpred
    simp at hpred

/-- Witness for C7 at the concrete leading-zero scenario
`raw = [0, 0, 4, 8, 13, 18, 22]`. -/
theorem claim7_witness :
    ∃ r ∈ okRecords (runEngine [0, 0, 4, 8, 13, 18, 22] [0, 1, 2, 3, 4, 5, 6]),
      r.frame_idx = 0 ∧ r.correction_type = some InterpType.EXTRAPOLATED_LEADING ∧
        r.corrected_value = -5 := by
  obtain ⟨r, hr, h1, h2, h3⟩ :=
    (claim7_leading_extrapolation [0, 0, 4, 8, 13, 18, 22] [0, 1, 2, 3, 4, 5, 6]
      2 (by decide) (by decide) (by decide) (by decide) (by decide)
      (by decide)).1 0 (by decide)
  refine ⟨r, hr, h1, h2, ?_⟩
  rw [h3]
  decide

/-! ### C8: the PATTERN_446 rewrite -/

/-- C8 counterexample: on raw deltas `[4,4,6]` (raw `[4,8,12,18]`) only the
middle frame of the triple (frame 2) receives a `PATTERN_446` log entry;
the last frame (frame 3) receives none, because the rewrite to `[4,5,5]`
preserves the cumulative sum and leaves its value unchanged, so log
minimality suppresses the entry the claim asserts for it. -/
theorem claim8_counterexample :
    (okLog (runEngine [4, 8, 12, 18] [0, 1, 2, 3])).map LogEntry.frame_idx =
        [2] ∧
      ¬ ∃ e ∈ okLog (runEngine [4, 8, 12, 18] [0, 1, 2, 3]),
        e.frame_idx = 3 := by
  decide

/-- C8 (amended): for a matched misread window (observed deltas `[4,4,6]`
against expected `[4,5,5]`, uncorrupted left context), the middle frame of
the delta triple gets a `PATTERN_446` entry with corrected delta 5 and
value shifted by the cumulative offset `+1`; the last frame's corrected
delta also becomes 5 but its value is unchanged (the misread preserves the
triplet sum, so the offset propagated past the window is zero) and hence it
produces no log entry. -/
theorem claim8_pattern_446 (raw : List Int) (ref : List ℚ) (i : Nat)
    (hok : isOk (runEngine raw ref) = true)
    (hpat : patternHit raw i = true)
    (hprev : curVal raw (i - 1) = rv raw (i - 1)) :
    (∃ e ∈ okLog (runEngine raw ref),
      e.frame_idx = i ∧ e.interpolation_type = .PATTERN_446 ∧
        e.original_value = rv raw i ∧ e.corrected_value = rv raw i + 1 ∧
        e.diff_after = some 5) ∧
    (∀ e ∈ okLog (runEngine raw ref), e.frame_idx ≠ i + 1) ∧
    (okCorrected (runEngine raw ref)).getD (i + 1) 0 = rv raw (i + 1) ∧
    (okCorrected (runEngine raw ref)).getD (i + 1) 0 -
      (okCorrected (runEngine raw ref)).getD i 0 = 5 := by
  have hpat0 := hpat
  simp only [patternHit, Bool.and_eq_true, decide_eq_true_eq, beq_iff_eq]
    at hpat
  obtain ⟨⟨⟨⟨⟨⟨⟨⟨⟨h2i, h3mod⟩, hin⟩, hr4⟩, hr5⟩, hr6⟩, hr7⟩, hd1⟩, hd2⟩,
    hd3⟩ := hpat
  obtain ⟨k, rfl⟩ : ∃ k, i = k + 2 := ⟨i - 2, by omega⟩
  have hr5' : resolvedB raw (k + 1) = true := hr5
  have hr7' : resolvedB raw (k + 3) = true := hr7
  have hd2' : rv raw (k + 2) - rv raw (k + 1) = 4 := hd2
  have hd3' : rv raw (k + 3) - rv raw (k + 2) = 6 := hd3
  have hprev' : curVal raw (k + 1) = rv raw (k + 1) := hprev
  have hin' : k + 3 < raw.length := hin
  have hmod' : (k + 2) % 3 = 2 := h3mod
  have hpv2 : pv raw (k + 2) = rv raw (k + 2) + 1 := by
    rw [pv, if_pos hpat0]
  have hpat3 : patternHit raw (k + 3) = false := by
    rw [Bool.eq_false_iff]
    intro hcon
    simp only [patternHit, Bool.and_eq_true, decide_eq_true_eq, beq_iff_eq]
      at hcon
    obtain ⟨⟨⟨⟨⟨⟨⟨⟨⟨-, hmod3⟩, -⟩, -⟩, -⟩, -⟩, -⟩, -⟩, -⟩, -⟩ := hcon
    omega
  have hpv3 : pv raw (k + 3) = rv raw (k + 3) := by
    rw [pv, hpat3]
    simp
  have hcur2 : curVal raw (k + 2) = rv raw (k + 2) + 1 := by
    simp only [curVal]
    rw [if_pos (by rw [Bool.and_eq_true]; exact ⟨hr6, hr5'⟩)]
    rw [hpv2, hprev']
    rw [if_pos (by
      rw [show rv raw (k + 2) + 1 - rv raw (k + 1) = 5 from by omega]
      rfl)]
  have hcur3 : curVal raw (k + 3) = rv raw (k + 3) := by
    rw [show k + 3 = (k + 1) + 2 from rfl, curVal_two]
    simp only [show (k + 1) + 2 = k + 3 from rfl,
      show (k + 1) + 1 = k + 2 from rfl]
    rw [if_pos (by rw [Bool.and_eq_true]; exact ⟨hr7', hr6⟩)]
    rw [hpv3, hcur2, hprev']
    rw [if_pos (by
      rw [show rv raw (k + 3) - (rv raw (k + 2) + 1) = 5 from by omega]
      rfl)]
  have hbd : badDiffHit raw (k + 2) = false := by
    rw [show k + 2 = (k + 1) + 1 from rfl]
    simp only [badDiffHit]
    rw [show (k + 1) + 1 = k + 2 from rfl, hpv2, hprev']
    rw [show rv raw (k + 2) + 1 - rv raw (k + 1) = 5 from by omega]
    rw [show validDelta 5 = true from rfl]
    simp
  have hfin1 : finalVal raw (k + 1) = rv raw (k + 1) := by
    rw [finalVal, if_pos hr5']
    exact hprev'
  have hfin2 : finalVal raw (k + 2) = rv raw (k + 2) + 1 := by
    rw [finalVal, if_pos hr6, hcur2]
  have hfin3 : finalVal raw (k + 3) = rv raw (k + 3) := by
    rw [finalVal, if_pos hr7', hcur3]
  have hct : finalCtype raw (k + 2) = some .PATTERN_446 := by
    rw [finalCtype, if_pos hr6, if_neg (by rw [hbd]; simp), if_pos hpat0]
  have hval : nValidOCR raw ≠ 0 := by
    have hnz : rv raw (k + 2) ≠ 0 := by
      have h6 := hr6
      rw [resolvedB, Bool.and_eq_true] at h6
      exact bne_iff_ne.mp h6.1
    exact nValidOCR_ne_zero (k + 2) (by omega) hnz
  have hlogE := okLog_of_ok hok
  have hcorE := okCorrected_of_ok hok
  rw [engineBody_main ref hval] at hlogE hcorE
  refine ⟨?_, ?_, ?_, ?_⟩
  · refine ⟨mkLogEntry raw (k + 2), ?_, rfl, ?_, rfl, ?_, ?_⟩
    · rw [hlogE]
      show mkLogEntry raw (k + 2) ∈ mainLog raw
      rw [mainLog]
      refine List.mem_map.mpr ⟨k + 2, List.mem_filter.mpr
        ⟨List.mem_range.mpr (by omega), bne_iff_ne.mpr ?_⟩, rfl⟩
      rw [hfin2]
      omega
    · show logTypeOf raw (k + 2) = InterpType.PATTERN_446
      rw [logTypeOf, hct]
      rfl
    · show finalVal raw (k + 2) = rv raw (k + 2) + 1
      exact hfin2
    · show diffA raw (k + 2) = some 5
      rw [show k + 2 = (k + 1) + 1 from rfl]
      simp only [diffA]
      rw [show (k + 1) + 1 = k + 2 from rfl, hfin2, hfin1]
      rw [show rv raw (k + 2) + 1 - rv raw (k + 1) = 5 from by omega]
  · intro e he
    rw [hlogE] at he
    obtain ⟨j, hj, rfl⟩ := List.mem_map.mp he
    obtain ⟨-, hpred⟩ := List.mem_filter.mp hj
    show j ≠ k + 2 + 1
    intro hcon
    rw [hcon] at hpred
    rw [show k + 2 + 1 = k + 3 from rfl, hfin3] at hpred
    simp at hpred
  · rw [hcorE]
    show ((List.range raw.length).map (finalVal raw)).getD (k + 3) 0 =
      rv raw (k + 3)
    rw [getD_map_range (finalVal raw) (by omega), hfin3]
  · rw [hcorE]
    show ((List.range raw.length).map (finalVal raw)).getD (k + 3) 0 -
        ((List.range raw.length).map (finalVal raw)).getD (k + 2) 0 = 5
    rw [getD_map_range (finalVal raw) (by omega),
      getD_map_range (finalVal raw) (by omega), hfin3, hfin2]
    omega

/-- Witness for C8 (amended) at the concrete misread window
`raw = [4, 8, 12, 18]`. -/
theorem claim8_witness :
    ∃ e ∈ okLog (runEngine [4, 8, 12, 18] [0, 1, 2, 3]),
      e.frame_idx = 2 ∧ e.interpolation_type = InterpType.PATTERN_446 ∧
        e.original_value = rv [4, 8, 12, 18] 2 ∧
        e.corrected_value = rv [4, 8, 12, 18] 2 + 1 ∧ e.diff_after = some 5 :=
  (claim8_pattern_446 [4, 8, 12, 18] [0, 1, 2, 3] 2 (by decide) (by decide)
    (by decide)).1

end ElementEvent
